import Mathlib

/-!
Verification of the brief2check core.

A shallow embedding of the extraction / validation / normalization pipeline
and the task store of the brief2check repository, together with theorems
settling the specification's claims about them.

The embedded functions follow `src/src/index.js` (the client core, which is
duplicated inside `server.js`): `extractJsonFromResponse`,
`validateJsonStructure`, `convertTasksToObjects`, `validateTaskText`,
`updateTaskTextInData`, `updateTaskCompletionInData`, `removeTask`,
`addTask`, the error classification inside `parseInstructions`, and
`generateExportText` from `server.js`.

JavaScript dynamic values consumed by the validator / normalizer are
modelled by the inductive `JVal`; the task store state (`currentData`) is
modelled as an association list from department names to arrays of slots,
a slot being `Option Task` (`none` models a hole / `undefined` entry of a
sparse JavaScript array, which arises when an index beyond the current
length is assigned).
-/

namespace Brief2Check

/-- A JSON-like JavaScript value, as consumed by the validation and
normalization functions (the parsed result of `JSON.parse`, or an
already-canonical collection being re-normalized). -/
inductive JVal where
  | str (s : String)
  | num (n : Int)
  | bool (b : Bool)
  | null
  | arr (elems : List JVal)
  | obj (fields : List (String × JVal))
deriving Repr

/-- JavaScript `typeof` on a `JVal` (note `typeof null === 'object'` and
`typeof [] === 'object'`). -/
def jsTypeof : JVal → String
  | .str _ => "string"
  | .num _ => "number"
  | .bool _ => "boolean"
  | .null => "object"
  | .arr _ => "object"
  | .obj _ => "object"

/-- JavaScript truthiness test: `!v` is true exactly on falsy values. -/
def jsFalsy : JVal → Bool
  | .null => true
  | .bool b => !b
  | .num n => n == 0
  | .str s => s == ""
  | .arr _ => false
  | .obj _ => false

/-- Test `typeof v === 'string'`. -/
def isStrVal : JVal → Bool
  | .str _ => true
  | _ => false

/-- Membership test `'k' in obj` for a plain object: the key is present among the fields. -/
def hasKey (fields : List (String × JVal)) (k : String) : Bool :=
  fields.any (fun kv => kv.1 == k)

/-- Property read `obj[k]`: value of the first field named `k`
(JavaScript objects cannot hold duplicate keys, so first = only). -/
def getKey (fields : List (String × JVal)) (k : String) : Option JVal :=
  (fields.find? (fun kv => kv.1 == k)).map (fun kv => kv.2)

/-- Result record returned by `validateJsonStructure`
(`{ isValid, error }` in the source). -/
structure ValidationResult where
  isValid : Bool
  error : Option String
deriving Repr, DecidableEq

/-- The message `Invalid structure: department "<k>" should be an array, got <t>`. -/
def departmentTypeError (k t : String) : String :=
  "Invalid structure: department \"" ++ k ++ "\" should be an array, got " ++ t

/-- The message `Invalid structure: department "<k>" contains non-string items`. -/
def nonStringItemsError (k : String) : String :=
  "Invalid structure: department \"" ++ k ++ "\" contains non-string items"

/-- The `for (const key in data)` loop body of `validateJsonStructure`:
per key, first require the value to be an array, then require every
element to be a string; stop at the first violation. -/
def checkDepartments : List (String × JVal) → Option String
  | [] => none
  | (k, v) :: rest =>
    match v with
    | .arr elems =>
      if elems.all isStrVal then checkDepartments rest
      else some (nonStringItemsError k)
    | v => some (departmentTypeError k (jsTypeof v))

/-- Model of `validateJsonStructure` from `src/src/index.js` (lines 61–97): rejects
non-objects and arrays, then checks every department value is an array of
strings, then rejects the empty object. -/
def validateJsonStructure : JVal → ValidationResult
  | .obj fields =>
    match checkDepartments fields with
    | some e => ⟨false, some e⟩
    | none =>
      if fields.isEmpty then
        ⟨false, some "Invalid response: no departments found in the response"⟩
      else ⟨true, none⟩
  | _ => ⟨false, some "Invalid response: expected an object with department keys"⟩

mutual

/-- Coercion `String(v)` for the normalizer's defensive fallback branch.  Arrays
stringify as their comma-joined elements with `null` rendered empty;
plain objects as `[object Object]`. -/
def jsToString : JVal → String
  | .null => "null"
  | .bool b => cond b "true" "false"
  | .num n => toString n
  | .str s => s
  | .arr elems => jsToStringList elems
  | .obj _ => "[object Object]"

def jsToStringList : List JVal → String
  | [] => ""
  | [.null] => ""
  | [e] => jsToString e
  | .null :: es => "," ++ jsToStringList es
  | e :: es => jsToString e ++ "," ++ jsToStringList es

end

/-- Test `task.completed === true`: strict equality, so only the boolean
`true` qualifies (an absent key reads as `undefined`, which fails). -/
def isTrueVal : Option JVal → Bool
  | some (.bool true) => true
  | _ => false

/-- The per-element conversion inside `convertTasksToObjects`:
an object carrying a `text` field is preserved with `text: task.text || ''`
and `completed: task.completed === true`; a string is wrapped; anything
else is stringified with `completed: false`. -/
def convertTask : JVal → JVal
  | .obj fields =>
    if hasKey fields "text" then
      let t := (getKey fields "text").getD .null
      .obj [("text", if jsFalsy t then .str "" else t),
            ("completed", .bool (isTrueVal (getKey fields "completed")))]
    else
      .obj [("text", .str (jsToString (.obj fields))), ("completed", .bool false)]
  | .str s => .obj [("text", .str s), ("completed", .bool false)]
  | v => .obj [("text", .str (jsToString v)), ("completed", .bool false)]

/-- Per-department step of `convertTasksToObjects`: map the element
conversion over an array value, and replace a non-array value with `[]`. -/
def convertDepartment : JVal → JVal
  | .arr tasks => .arr (tasks.map convertTask)
  | _ => .arr []

/-- Model of `convertTasksToObjects` from `src/src/index.js` (lines 104–139).
Non-objects pass through unchanged (`if (!data || typeof data !== 'object')
return data`); an array input passes the guard (`typeof [] === 'object'`)
and its `for...in` enumeration produces an index-keyed plain object. -/
def convertTasksToObjects : JVal → JVal
  | .obj fields => .obj (fields.map (fun kv => (kv.1, convertDepartment kv.2)))
  | .arr elems => .obj (elems.enum.map (fun iv => (toString iv.1, convertDepartment iv.2)))
  | v => v

/-! ## The task store (`currentData`) -/

/-- The canonical task record `{ text, completed }`. -/
structure Task where
  text : String
  completed : Bool
deriving Repr, DecidableEq

/-- One array cell of a department: `none` models a hole / `undefined`
entry of a sparse JavaScript array. -/
abbrev Slot := Option Task

/-- The store state `currentData`: department name → array of slots,
in insertion order. -/
abbrev TaskStore := List (String × List Slot)

/-- Property read `currentData[department]` (first = only match;
JavaScript objects cannot hold duplicate keys). -/
def lookupDept (store : TaskStore) (d : String) : Option (List Slot) :=
  (store.find? (fun kv => kv.1 == d)).map (fun kv => kv.2)

/-- In-place update of the (first) binding of department `d`. -/
def updateDept (store : TaskStore) (d : String) (f : List Slot → List Slot) :
    TaskStore :=
  match store with
  | [] => []
  | (k, v) :: rest =>
    if k == d then (k, f v) :: rest else (k, v) :: updateDept rest d f

/-- Array read `slots[i]`: `none` for a hole or an out-of-range index
(both read as `undefined`). -/
def getSlot : List Slot → Nat → Slot
  | [], _ => none
  | s :: _, 0 => s
  | _ :: rest, i + 1 => getSlot rest i

/-- Array write `slots[i] = v`: assigning past the end pads the array
with holes, as JavaScript does. -/
def setSlot : List Slot → Nat → Slot → List Slot
  | [], 0, x => [x]
  | [], i + 1, x => none :: setSlot [] i x
  | _ :: rest, 0, x => x :: rest
  | s :: rest, i + 1, x => s :: setSlot rest i x

/-- The per-task step of `validateDataStructure` on a task record that is
already an object with a `text` field: `text: task.text || ''`,
`completed: task.completed === true`. -/
def normTaskObj (t : Task) : Task :=
  { text := if t.text == "" then "" else t.text, completed := t.completed }

/-- Model of `validateDataStructure` restricted to well-typed stores: every
department already holds an array, and every non-hole slot is a task
object, so only the object branch of the source's `map` is exercised
(JavaScript `map` skips holes, hence `Option.map`). -/
def validateDataStructure (store : TaskStore) : TaskStore :=
  store.map (fun kv => (kv.1, kv.2.map (Option.map normTaskObj)))

/-- The slot produced by `updateTaskTextInData` at the addressed index:
an existing task object is kept, a missing slot is first created as
`{ text: '', completed: false }`, then `.text` is assigned. -/
def setTextSlot (slots : List Slot) (i : Nat) (text : String) : List Slot :=
  let base := match getSlot slots i with
    | some t => t
    | none => ⟨"", false⟩
  setSlot slots i (some { base with text := text })

/-- Model of `updateTaskTextInData` from `src/src/index.js` (lines 270–290):
returns unchanged when the store has no binding for the department
(`if (!currentData || !currentData[department]) return`), otherwise
writes the text at the index and re-runs `validateDataStructure`. -/
def updateTaskTextInData (store : TaskStore) (department : String)
    (index : Nat) (text : String) : TaskStore :=
  match lookupDept store department with
  | none => store
  | some _ =>
    validateDataStructure
      (updateDept store department (fun slots => setTextSlot slots index text))

/-- The slot produced by `updateTaskCompletionInData` at the addressed
index: a missing slot is first created as
`{ text: currentData[department][index] || '', completed: false }`
(`undefined || ''` is `''`), then `.completed = completed === true` is
assigned.  The `completed` argument is already a boolean here, so the
strict-equality coercion is the identity. -/
def setCompletedSlot (slots : List Slot) (i : Nat) (c : Bool) : List Slot :=
  let base := match getSlot slots i with
    | some t => t
    | none => ⟨"", false⟩
  setSlot slots i (some { base with completed := c })

/-- Model of `updateTaskCompletionInData` from `src/src/index.js` (lines 298–318):
no-op when the department is absent, otherwise sets the completion flag
at the index (creating the slot if missing). -/
def updateTaskCompletionInData (store : TaskStore) (department : String)
    (index : Nat) (completed : Bool) : TaskStore :=
  match lookupDept store department with
  | none => store
  | some _ =>
    updateDept store department (fun slots => setCompletedSlot slots index completed)

/-- Semantics of `array.splice(i, 1)` as used by `removeTask`: a negative start counts
from the end and is clamped to `0`; a start at or past the length deletes
nothing. -/
def spliceRemoveOne (l : List Slot) (i : Int) : List Slot :=
  let start : Nat :=
    if i < 0 then ((l.length : Int) + i).toNat else min i.toNat l.length
  l.take start ++ l.drop (start + 1)

/-- Model of `removeTask` from `src/src/index.js` (lines 391–403): no-op when the
department is absent, otherwise `splice(index, 1)` on its array (the
subsequent progress/render calls are pure UI). -/
def removeTask (store : TaskStore) (department : String) (index : Int) :
    TaskStore :=
  match lookupDept store department with
  | none => store
  | some _ =>
    updateDept store department (fun slots => spliceRemoveOne slots index)

/-- The freshly pushed task of `addTask`: `{ text: '', completed: false }`. -/
def emptyTask : Task := ⟨"", false⟩

/-- Model of `addTask` from `src/src/index.js` (lines 409–453): creates the
department (as a new last key) if absent, pushes an empty incomplete
task, and — having no `return` statement — yields `undefined`, modelled
as the `none` in the second component. -/
def addTask (store : TaskStore) (department : String) : TaskStore × Option Nat :=
  let store' :=
    if (lookupDept store department).isSome then
      updateDept store department (fun slots => slots ++ [some emptyTask])
    else store ++ [(department, [some emptyTask])]
  (store', none)

/-! ## JavaScript string helpers -/

/-- The whitespace characters recognized by JavaScript's `trim` (the
common ones: space, tab, newline, carriage return, vertical tab, form
feed). -/
def isJsWs (c : Char) : Bool :=
  c == ' ' || c == '\t' || c == '\n' || c == '\r' || c == '\x0b' || c == '\x0c'

/-- Drop leading JavaScript whitespace. -/
def trimLeftL : List Char → List Char
  | [] => []
  | c :: cs => if isJsWs c then trimLeftL cs else c :: cs

/-- Drop trailing JavaScript whitespace. -/
def trimRightL (l : List Char) : List Char :=
  (trimLeftL l.reverse).reverse

/-- JavaScript `String.prototype.trim`. -/
def jsTrim (s : String) : String :=
  ⟨trimRightL (trimLeftL s.data)⟩

/-- Index search `list.indexOf(c)` (as an `Option` instead of `-1`). -/
def firstIndexOf (l : List Char) (c : Char) : Option Nat :=
  l.findIdx? (fun x => x == c)

/-- Index search `list.lastIndexOf(c)` (as an `Option` instead of `-1`). -/
def lastIndexOf (l : List Char) (c : Char) : Option Nat :=
  (l.reverse.findIdx? (fun x => x == c)).map (fun k => l.length - 1 - k)

/-! ## Response extractor -/

/-- The three-backtick fence delimiter. -/
def fenceTicks : List Char := ['\x60', '\x60', '\x60']

/-- Does the text start with a fence? -/
def startsWithFence (l : List Char) : Bool :=
  l.take 3 == fenceTicks

/-- The optional language tag `json` of the fence regex. -/
def jsonTag : List Char := ['j', 's', 'o', 'n']

/-- Content up to (excluding) the first closing fence, or `none` when no
fence follows: the lazy `([\s\S]*?)` of the regex stops at the earliest
closing ``` while the flanking `\s*` only shave whitespace that the
caller's `trim` would remove anyway. -/
def splitAtFence : List Char → Option (List Char)
  | [] => none
  | c :: cs =>
    if startsWithFence (c :: cs) then some []
    else (splitAtFence cs).map (fun content => c :: content)

/-- The capture of the fence regex ```` /```(?:json)?\s*([\s\S]*?)\s*```/ ````
on the text (up to surrounding whitespace, which the caller trims): the
leftmost opening fence that is followed by a closing fence opens the
match; an immediately following `json` tag is consumed. -/
def fenceContent : List Char → Option (List Char)
  | [] => none
  | c :: cs =>
    if startsWithFence (c :: cs) then
      let rest := cs.drop 2
      let rest' := if rest.take 4 == jsonTag then rest.drop 4 else rest
      match splitAtFence rest' with
      | some content => some content
      | none => fenceContent cs
    else fenceContent cs

/-- The first-`{`-to-last-`}` step of `extractJsonFromResponse`: take the
inclusive substring when both braces exist and the last `}` is after the
first `{`, otherwise keep the text unchanged. -/
def braceSlice (s : String) : String :=
  let cs := s.data
  match firstIndexOf cs '\x7b', lastIndexOf cs '\x7d' with
  | some f, some l => if f < l then ⟨(cs.drop f).take (l + 1 - f)⟩ else s
  | _, _ => s

/-- Model of `extractJsonFromResponse` from `src/src/index.js` (lines 30–54):
throws only on a falsy / non-string argument (here: the empty string);
otherwise trims, replaces the text with the trimmed fenced content when
the fence regex matches, and then applies the brace-slice step — which
leaves the text unchanged when no suitable brace pair exists. -/
def extractJsonFromResponse (s : String) : Except String String :=
  if s == "" then .error "Invalid response: expected string content"
  else
    let t := jsTrim s
    let t' := match fenceContent t.data with
      | some content => jsTrim ⟨content⟩
      | none => t
    .ok (braceSlice t')

/-! ## Transport error classification -/

/-- The error classification of `parseInstructions` (`src/src/index.js`
lines 190–203) for a non-ok response: the argument `errorMessage` is the
already-resolved `errorData.error || 'Request failed with status …'`. -/
def classifyParseError (status : Nat) (errorMessage : String) : String :=
  if status == 401 then "Invalid API key. Please check server configuration."
  else if status == 429 then "Rate limit exceeded. Please try again later."
  else if 500 ≤ status then "Server error. Please try again later."
  else errorMessage

/-! ## Export formatter -/

/-- The two fixed status strings of the export text. -/
def statusLabel (completed : Bool) : String :=
  if completed then "✔️ Completed" else "⏳ In progress"

/-- The task-object coercion inside `generateExportText`: a hole reads as
`undefined`, which is neither an object with `text` nor a string, so it
becomes `{ text: String(undefined) = "undefined", completed: false }`. -/
def slotTask : Slot → Task
  | some t => t
  | none => ⟨"undefined", false⟩

/-- One task block of the export text:
`\n`-terminated ordinal line plus indented status line plus blank line. -/
def taskBlock (i : Nat) (s : Slot) : String :=
  let t := slotTask s
  toString (i + 1) ++ ". " ++ t.text ++ "\n" ++ "   Status: " ++
    statusLabel t.completed ++ "\n\n"

/-- Concatenation of a list of strings. -/
def joinStrs : List String → String
  | [] => ""
  | s :: rest => s ++ joinStrs rest

/-- Model of `generateExportText` from `server.js` (lines 1033–1066).  The
`timeString` argument models `new Date().toLocaleTimeString('en-US',
{hour:'numeric',minute:'2-digit',hour12:true})`, the only
clock-dependent part; everything else is a pure function of the
department and the store, so repeated calls with the same inputs agree
definitionally. -/
def generateExportText (department : String) (store : TaskStore)
    (timeString : String) : String :=
  match lookupDept store department with
  | none => ""
  | some tasks =>
    if tasks.length == 0 then ""
    else
      jsTrim (department ++ "\n" ++ "Status as of " ++ timeString ++ "\n\n" ++
        joinStrs (tasks.enum.map (fun p => taskBlock p.1 p.2)))

/-! ## Helper lemmas about the store -/

theorem lookupDept_nil (d : String) : lookupDept [] d = none := rfl

theorem lookupDept_cons (k : String) (w : List Slot) (rest : TaskStore)
    (d : String) :
    lookupDept ((k, w) :: rest) d = if k = d then some w else lookupDept rest d := by
  by_cases h : k = d <;> simp [lookupDept, List.find?_cons, h]

theorem updateDept_cons (k : String) (w : List Slot) (rest : TaskStore)
    (d : String) (f : List Slot → List Slot) :
    updateDept ((k, w) :: rest) d f =
      if k = d then (k, f w) :: rest else (k, w) :: updateDept rest d f := by
  by_cases h : k = d <;> simp [updateDept, h]

theorem lookupDept_updateDept_self {store : TaskStore} {d : String}
    {v : List Slot} (h : lookupDept store d = some v) (f : List Slot → List Slot) :
    lookupDept (updateDept store d f) d = some (f v) := by
  induction store with
  | nil => simp [lookupDept] at h
  | cons kv rest ih =>
    obtain ⟨k, w⟩ := kv
    rw [lookupDept_cons] at h
    rw [updateDept_cons]
    by_cases hk : k = d
    · rw [if_pos hk] at h
      cases h
      rw [if_pos hk, lookupDept_cons, if_pos hk]
    · rw [if_neg hk] at h
      rw [if_neg hk, lookupDept_cons, if_neg hk]
      exact ih h

theorem lookupDept_updateDept_ne {store : TaskStore} {d d' : String}
    (h : d' ≠ d) (f : List Slot → List Slot) :
    lookupDept (updateDept store d f) d' = lookupDept store d' := by
  induction store with
  | nil => rfl
  | cons kv rest ih =>
    obtain ⟨k, w⟩ := kv
    rw [updateDept_cons]
    by_cases hk : k = d
    · rw [if_pos hk, lookupDept_cons, lookupDept_cons,
        if_neg (hk ▸ fun hh => h hh.symm), if_neg (hk ▸ fun hh => h hh.symm)]
    · rw [if_neg hk, lookupDept_cons, lookupDept_cons]
      by_cases hkd : k = d'
      · rw [if_pos hkd, if_pos hkd]
      · rw [if_neg hkd, if_neg hkd]
        exact ih

theorem updateDept_self_id {store : TaskStore} {d : String} {v : List Slot}
    (h : lookupDept store d = some v) {f : List Slot → List Slot}
    (hf : f v = v) : updateDept store d f = store := by
  induction store with
  | nil => rfl
  | cons kv rest ih =>
    obtain ⟨k, w⟩ := kv
    rw [lookupDept_cons] at h
    rw [updateDept_cons]
    by_cases hk : k = d
    · rw [if_pos hk] at h
      cases h
      rw [if_pos hk, hf]
    · rw [if_neg hk] at h
      rw [if_neg hk, ih h]

theorem lookupDept_append_of_none {store : TaskStore} {d : String}
    (h : lookupDept store d = none) (v : List Slot) :
    lookupDept (store ++ [(d, v)]) d = some v := by
  induction store with
  | nil => rw [List.nil_append, lookupDept_cons, if_pos rfl]
  | cons kv rest ih =>
    obtain ⟨k, w⟩ := kv
    rw [lookupDept_cons] at h
    by_cases hk : k = d
    · rw [if_pos hk] at h; cases h
    · rw [if_neg hk] at h
      rw [List.cons_append, lookupDept_cons, if_neg hk]
      exact ih h

theorem lookupDept_append_ne {store : TaskStore} {d d' : String}
    (h : d' ≠ d) (v : List Slot) :
    lookupDept (store ++ [(d, v)]) d' = lookupDept store d' := by
  induction store with
  | nil =>
    rw [List.nil_append, lookupDept_cons, if_neg (fun hh => h hh.symm),
      lookupDept_nil]
  | cons kv rest ih =>
    obtain ⟨k, w⟩ := kv
    rw [List.cons_append, lookupDept_cons, lookupDept_cons]
    by_cases hk : k = d'
    · rw [if_pos hk, if_pos hk]
    · rw [if_neg hk, if_neg hk]; exact ih

theorem getSlot_setSlot_self (i : Nat) (slots : List Slot) (x : Slot) :
    getSlot (setSlot slots i x) i = x := by
  induction i generalizing slots with
  | zero => cases slots <;> rfl
  | succ n ih =>
    cases slots with
    | nil => exact ih []
    | cons s rest => exact ih rest

theorem getSlot_setSlot_ne (i j : Nat) (slots : List Slot) (x : Slot)
    (h : j ≠ i) : getSlot (setSlot slots i x) j = getSlot slots j := by
  induction i generalizing slots j with
  | zero =>
    cases slots with
    | nil =>
      cases j with
      | zero => exact absurd rfl h
      | succ m => rfl
    | cons s rest =>
      cases j with
      | zero => exact absurd rfl h
      | succ m => rfl
  | succ n ih =>
    cases slots with
    | nil =>
      cases j with
      | zero => rfl
      | succ m => exact ih m [] (fun hh => h (by rw [hh]))
    | cons s rest =>
      cases j with
      | zero => rfl
      | succ m => exact ih m rest (fun hh => h (by rw [hh]))

theorem normTaskObj_eq (t : Task) : normTaskObj t = t := by
  obtain ⟨tx, c⟩ := t
  simp only [normTaskObj]
  by_cases h : tx = "" <;> simp [h]

theorem validateDataStructure_id (store : TaskStore) :
    validateDataStructure store = store := by
  have hs : ∀ s : Slot, Option.map normTaskObj s = s := by
    intro s; cases s <;> simp [normTaskObj_eq]
  have hl : ∀ l : List Slot, l.map (Option.map normTaskObj) = l := by
    intro l
    induction l with
    | nil => rfl
    | cons a rest ih => simp [hs, ih]
  induction store with
  | nil => rfl
  | cons kv rest ih =>
    obtain ⟨k, w⟩ := kv
    simp only [validateDataStructure, List.map_cons, hl] at ih ⊢
    rw [ih]

/-! ## Claim C5 -/

/-- Claim C5 (confirmed): starting from a store whose department holds
three incomplete tasks `a`, `b`, `c`, removing index `1` leaves the
department holding `[a, c]` (the task previously at index `2` shifted
down), and a subsequent `setCompleted(department, 1, true)` marks `c`
completed. -/
theorem remove_then_setCompleted (d ta tb tc : String) :
    removeTask [(d, [some ⟨ta, false⟩, some ⟨tb, false⟩, some ⟨tc, false⟩])] d 1 =
      [(d, [some ⟨ta, false⟩, some ⟨tc, false⟩])] ∧
    updateTaskCompletionInData
      (removeTask [(d, [some ⟨ta, false⟩, some ⟨tb, false⟩, some ⟨tc, false⟩])] d 1)
      d 1 true =
      [(d, [some ⟨ta, false⟩, some ⟨tc, true⟩])] := by
  have h1 : removeTask
      [(d, [some ⟨ta, false⟩, some ⟨tb, false⟩, some ⟨tc, false⟩])] d 1 =
      [(d, [some ⟨ta, false⟩, some ⟨tc, false⟩])] := by
    simp [removeTask, lookupDept_cons, updateDept, spliceRemoveOne]
  refine ⟨h1, ?_⟩
  rw [h1]
  simp [updateTaskCompletionInData, lookupDept_cons, updateDept,
    setCompletedSlot, getSlot, setSlot]

/-! ## Claim C10 -/

/-- Claim C10 (confirmed): for a department present in the store,
`remove(department, index)` with `index ≥ length` leaves the department's
sequence (indeed the whole store) unchanged, while a negative index that
is still within range removes the element counted from the end of the
sequence — the position `length + index` — per JavaScript `splice`
semantics, shrinking the sequence by one instead of being a no-op. -/
theorem removeTask_bounds (store : TaskStore) (d : String) (slots : List Slot)
    (i : Int) (h : lookupDept store d = some slots) :
    ((slots.length : Int) ≤ i → removeTask store d i = store) ∧
    (i < 0 → 0 ≤ (slots.length : Int) + i →
      lookupDept (removeTask store d i) d =
        some (slots.take (((slots.length : Int) + i).toNat) ++
          slots.drop (((slots.length : Int) + i).toNat + 1)) ∧
      (slots.take (((slots.length : Int) + i).toNat) ++
          slots.drop (((slots.length : Int) + i).toNat + 1)).length + 1 =
        slots.length) := by
  constructor
  · intro hge
    have hnn : ¬ i < 0 := by omega
    have hsplice : spliceRemoveOne slots i = slots := by
      have hstart : min i.toNat slots.length = slots.length := by omega
      simp only [spliceRemoveOne, if_neg hnn, hstart]
      rw [List.take_length, List.drop_eq_nil_of_le (by omega), List.append_nil]
    simp only [removeTask, h]
    exact updateDept_self_id h hsplice
  · intro hneg hin
    have hsplice : spliceRemoveOne slots i =
        slots.take (((slots.length : Int) + i).toNat) ++
          slots.drop (((slots.length : Int) + i).toNat + 1) := by
      simp only [spliceRemoveOne, if_pos hneg]
    constructor
    · simp only [removeTask, h]
      rw [lookupDept_updateDept_self h, hsplice]
    · have hlt : (((slots.length : Int) + i).toNat) < slots.length := by omega
      rw [List.length_append, List.length_take, List.length_drop]
      omega

/-- Witness for C10 at a concrete store: removing index `7` from a
three-task department is a no-op, and removing index `-1` deletes the
last task. -/
theorem removeTask_bounds_witness :
    removeTask [("A", [some ⟨"a", false⟩, some ⟨"b", false⟩, some ⟨"c", false⟩])]
      "A" 7 =
      [("A", [some ⟨"a", false⟩, some ⟨"b", false⟩, some ⟨"c", false⟩])] ∧
    lookupDept
      (removeTask [("A", [some ⟨"a", false⟩, some ⟨"b", false⟩, some ⟨"c", false⟩])]
        "A" (-1)) "A" =
      some [some ⟨"a", false⟩, some ⟨"b", false⟩] := by
  have h : lookupDept
      [("A", [some ⟨"a", false⟩, some ⟨"b", false⟩, some ⟨"c", false⟩])] "A" =
      some [some ⟨"a", false⟩, some ⟨"b", false⟩, some ⟨"c", false⟩] := by
    rw [lookupDept_cons, if_pos rfl]
  constructor
  · exact (removeTask_bounds _ "A" _ 7 h).1 (by simp)
  · have h2 := ((removeTask_bounds _ "A" _ (-1) h).2 (by norm_num) (by simp)).1
    simpa using h2

/-! ## Claim C6 -/

/-- Counterexample to claim C6 as stated: `setText` on a department that
is absent from the store does nothing — no slot is created and the text
is not stored — because `updateTaskTextInData` returns early when
`currentData[department]` is undefined.  The claim asserts the addressed
slot would be created and `"x"` stored verbatim. -/
theorem setText_absent_department_counterexample :
    updateTaskTextInData [("Marketing", [some ⟨"m", false⟩])] "Legal" 0 "x" =
      [("Marketing", [some ⟨"m", false⟩])] ∧
    lookupDept
      (updateTaskTextInData [("Marketing", [some ⟨"m", false⟩])] "Legal" 0 "x")
      "Legal" = none := by
  constructor <;> rfl

/-- Claim C6 (corrected): provided the department already exists in the
store, `setText(department, index, text)` creates the addressed slot as
an empty task first if it does not exist, stores the given text verbatim
(even when empty or over-long — validation is advisory), and leaves the
completion state at that slot unchanged (false for a freshly created
slot); all other slots and departments are untouched.  When the
department is absent the call leaves the store unchanged. -/
theorem setText_spec (store : TaskStore) (d : String) (i : Nat) (text : String) :
    (lookupDept store d = none → updateTaskTextInData store d i text = store) ∧
    (∀ slots, lookupDept store d = some slots →
      ∃ slots', lookupDept (updateTaskTextInData store d i text) d = some slots' ∧
        getSlot slots' i =
          some ⟨text, match getSlot slots i with
                      | some t => t.completed
                      | none => false⟩ ∧
        (∀ j, j ≠ i → getSlot slots' j = getSlot slots j) ∧
        (∀ d', d' ≠ d →
          lookupDept (updateTaskTextInData store d i text) d' =
            lookupDept store d')) := by
  constructor
  · intro h
    simp [updateTaskTextInData, h]
  · intro slots h
    have hrw : updateTaskTextInData store d i text =
        updateDept store d (fun s => setTextSlot s i text) := by
      simp [updateTaskTextInData, h, validateDataStructure_id]
    refine ⟨setTextSlot slots i text, ?_, ?_, ?_, ?_⟩
    · rw [hrw]
      exact lookupDept_updateDept_self h _
    · simp only [setTextSlot, getSlot_setSlot_self]
      cases hs : getSlot slots i <;> simp [hs]
    · intro j hj
      simp only [setTextSlot]
      exact getSlot_setSlot_ne i j slots _ hj
    · intro d' hd
      rw [hrw]
      exact lookupDept_updateDept_ne hd _

/-- Witness for the corrected C6: on a present department, writing text
at index `1` (just past the end) creates the slot with the given text,
incomplete, and leaves the slot at index `0` and the other department
untouched. -/
theorem setText_spec_witness :
    ∃ slots',
      lookupDept
        (updateTaskTextInData
          [("Marketing", [some ⟨"m", true⟩]), ("Legal", [some ⟨"l", false⟩])]
          "Marketing" 1 "new text") "Marketing" = some slots' ∧
      getSlot slots' 1 = some ⟨"new text", false⟩ ∧
      getSlot slots' 0 = some ⟨"m", true⟩ ∧
      lookupDept
        (updateTaskTextInData
          [("Marketing", [some ⟨"m", true⟩]), ("Legal", [some ⟨"l", false⟩])]
          "Marketing" 1 "new text") "Legal" = some [some ⟨"l", false⟩] := by
  have h : lookupDept
      [("Marketing", [some ⟨"m", true⟩]), ("Legal", [some ⟨"l", false⟩])]
      "Marketing" = some [some ⟨"m", true⟩] := by
    rw [lookupDept_cons, if_pos rfl]
  obtain ⟨slots', h1, h2, h3, h4⟩ :=
    (setText_spec [("Marketing", [some ⟨"m", true⟩]), ("Legal", [some ⟨"l", false⟩])]
      "Marketing" 1 "new text").2 [some ⟨"m", true⟩] h
  refine ⟨slots', h1, h2, ?_, ?_⟩
  · rw [h3 0 (by decide)]; rfl
  · rw [h4 "Legal" (by decide)]
    rw [lookupDept_cons, if_neg (by decide), lookupDept_cons, if_pos rfl]

/-! ## Claim C7 -/

/-- Counterexample to claim C7 as stated: `addTask` has no `return`
statement, so it yields `undefined` (modelled `none`), not the appended
task's position; for a fresh department the claim would require the
return value `0`. -/
theorem addTask_return_counterexample :
    (addTask ([] : TaskStore) "A").2 = none ∧
    (addTask ([] : TaskStore) "A").2 ≠ some 0 := by
  constructor
  · rfl
  · decide

/-- Claim C7 (corrected): `add(department)` appends a task with empty
text and `completed = false` to the department's sequence, creating the
department (as a new last key) if absent, and leaves every other
department unchanged; the appended task sits at position `length - 1` of
the department after the append, but the function itself returns no
value (`undefined`), not that position. -/
theorem addTask_spec (store : TaskStore) (d : String) :
    (addTask store d).2 = none ∧
    lookupDept (addTask store d).1 d =
      some (((lookupDept store d).getD []) ++ [some emptyTask]) ∧
    (∀ d', d' ≠ d → lookupDept (addTask store d).1 d' = lookupDept store d') := by
  refine ⟨rfl, ?_, ?_⟩
  · cases h : lookupDept store d with
    | none =>
      simp only [addTask, h, Option.isSome_none, Bool.false_eq_true, if_false,
        Option.getD_none, List.nil_append]
      exact lookupDept_append_of_none h _
    | some slots =>
      simp only [addTask, h, Option.isSome_some, if_true, Option.getD_some]
      exact lookupDept_updateDept_self h _
  · intro d' hd
    cases h : lookupDept store d with
    | none =>
      simp only [addTask, h, Option.isSome_none, Bool.false_eq_true, if_false]
      exact lookupDept_append_ne hd _
    | some slots =>
      simp only [addTask, h, Option.isSome_some, if_true]
      exact lookupDept_updateDept_ne hd _

/-- Witness for the corrected C7 on a fresh store: the department is
created holding exactly the one empty incomplete task, another name is
still unbound, and the call returns no value. -/
theorem addTask_spec_witness :
    (addTask ([] : TaskStore) "Brand").2 = none ∧
    lookupDept (addTask ([] : TaskStore) "Brand").1 "Brand" =
      some (((lookupDept ([] : TaskStore) "Brand").getD []) ++ [some emptyTask]) ∧
    lookupDept (addTask ([] : TaskStore) "Brand").1 "Other" =
      lookupDept ([] : TaskStore) "Other" := by
  refine ⟨(addTask_spec [] "Brand").1, (addTask_spec [] "Brand").2.1, ?_⟩
  exact (addTask_spec [] "Brand").2.2 "Other" (by decide)

/-! ## Claim C9 -/

/-- Counterexample to claim C9 as stated: a 403 response is not mapped
to the auth error — the classification in `parseInstructions` tests only
`status === 401` — so 403 falls through to the generic branch carrying
the response's message. -/
theorem classify_403_counterexample :
    classifyParseError 403 "API Error: Forbidden" = "API Error: Forbidden" ∧
    classifyParseError 403 "API Error: Forbidden" ≠
      "Invalid API key. Please check server configuration." := by
  constructor
  · rfl
  · decide

/-- Claim C9 (corrected): for every non-2xx transport response, the
error classification maps status 401 (but not 403) to the auth error,
status 429 to the rate-limit error, every status of 500 or greater to
the server error, and every other status — including 403 — to a generic
error carrying the response's message. -/
theorem classify_spec (status : Nat) (msg : String)
    (h : ¬(200 ≤ status ∧ status ≤ 299)) :
    (status = 401 →
      classifyParseError status msg =
        "Invalid API key. Please check server configuration.") ∧
    (status = 429 →
      classifyParseError status msg =
        "Rate limit exceeded. Please try again later.") ∧
    (500 ≤ status →
      classifyParseError status msg =
        "Server error. Please try again later.") ∧
    (status ≠ 401 → status ≠ 429 → status < 500 →
      classifyParseError status msg = msg) := by
  refine ⟨?_, ?_, ?_, ?_⟩
  · intro h1; subst h1; rfl
  · intro h1; subst h1; rfl
  · intro h1
    have h401 : status ≠ 401 := by omega
    have h429 : status ≠ 429 := by omega
    simp [classifyParseError, h401, h429, h1]
  · intro h1 h2 h3
    have h4 : ¬ 500 ≤ status := by omega
    simp [classifyParseError, h1, h2, h4]

/-- Witness for the corrected C9: a 503 response (non-2xx) maps to the
fixed server-error message. -/
theorem classify_spec_witness :
    classifyParseError 503 "boom" = "Server error. Please try again later." :=
  (classify_spec 503 "boom" (by omega)).2.2.1 (by omega)

/-! ## Claim C1 -/

/-- Counterexample to claim C1 as stated: an array element that is an
object containing a `text` field is rejected by `validateJsonStructure`
(only strings pass the element check), with the message naming the key. -/
theorem validate_object_element_counterexample :
    validateJsonStructure
        (.obj [("A", .arr [.obj [("text", .str "x")]])]) =
      ⟨false, some (nonStringItemsError "A")⟩ ∧
    (validateJsonStructure
        (.obj [("A", .arr [.obj [("text", .str "x")]])])).isValid = false := by
  constructor <;> rfl

/-- Soundness of the validator loop: a run with no error means every
department value is an array of strings. -/
theorem checkDepartments_none_sound {fields : List (String × JVal)}
    (h : checkDepartments fields = none) :
    ∀ kv ∈ fields, ∃ elems, kv.2 = JVal.arr elems ∧
      ∀ e ∈ elems, isStrVal e = true := by
  induction fields with
  | nil => intro kv hkv; cases hkv
  | cons kv0 rest ih =>
    obtain ⟨k, v⟩ := kv0
    intro kv hkv
    cases v with
    | arr elems =>
      by_cases hall : elems.all isStrVal
      · rw [show checkDepartments ((k, JVal.arr elems) :: rest) =
            checkDepartments rest by simp [checkDepartments, hall]] at h
        rcases List.mem_cons.mp hkv with hkv | hkv
        · subst hkv
          exact ⟨elems, rfl, fun e he => List.all_eq_true.mp hall e he⟩
        · exact ih h kv hkv
      · rw [show checkDepartments ((k, JVal.arr elems) :: rest) =
            some (nonStringItemsError k) by
              simp [checkDepartments, hall]] at h
        cases h
    | str s => simp [checkDepartments] at h
    | num n => simp [checkDepartments] at h
    | bool b => simp [checkDepartments] at h
    | null => simp [checkDepartments] at h
    | obj o => simp [checkDepartments] at h

/-- Claim C1 (corrected): `validateJsonStructure` accepts an array
element only when it is a string — an object containing a `text` field
is also rejected — and the first key whose array holds a non-string
element makes validation fail with a message naming that key. -/
theorem validate_strings_only :
    (∀ fields, (validateJsonStructure (.obj fields)).isValid = true →
      ∀ kv ∈ fields, ∃ elems, kv.2 = JVal.arr elems ∧
        ∀ e ∈ elems, isStrVal e = true) ∧
    (∀ (pre : List (String × JVal)) (k : String) (elems : List JVal)
        (post : List (String × JVal)),
      (∀ kv ∈ pre, ∃ es, kv.2 = JVal.arr es ∧ es.all isStrVal = true) →
      elems.all isStrVal = false →
      validateJsonStructure (.obj (pre ++ (k, JVal.arr elems) :: post)) =
        ⟨false, some (nonStringItemsError k)⟩) := by
  constructor
  · intro fields h
    cases hc : checkDepartments fields with
    | some e => simp [validateJsonStructure, hc] at h
    | none => exact checkDepartments_none_sound hc
  · intro pre k elems post hpre hall
    have hc : checkDepartments (pre ++ (k, JVal.arr elems) :: post) =
        some (nonStringItemsError k) := by
      induction pre with
      | nil => simp [checkDepartments, hall]
      | cons kv0 rest ih =>
        obtain ⟨k0, v0⟩ := kv0
        obtain ⟨es, hv0, hes⟩ := hpre (k0, v0) (List.mem_cons_self _ _)
        simp only at hv0
        subst hv0
        rw [List.cons_append,
          show checkDepartments ((k0, JVal.arr es) :: (rest ++ (k, JVal.arr elems) :: post)) =
            checkDepartments (rest ++ (k, JVal.arr elems) :: post) by
              simp [checkDepartments, hes]]
        exact ih (fun kv hkv => hpre kv (List.mem_cons_of_mem _ hkv))
    simp [validateJsonStructure, hc]

/-- Witness for the corrected C1: a validated singleton of string tasks
is indeed all strings, and a numeric element after a clean first key
fails naming the second key. -/
theorem validate_strings_only_witness :
    (∀ kv ∈ [("A", JVal.arr [JVal.str "x"])], ∃ elems,
      kv.2 = JVal.arr elems ∧ ∀ e ∈ elems, isStrVal e = true) ∧
    validateJsonStructure
        (.obj [("A", JVal.arr [JVal.str "x"]), ("B", JVal.arr [JVal.num 1])]) =
      ⟨false, some (nonStringItemsError "B")⟩ := by
  constructor
  · exact validate_strings_only.1 [("A", JVal.arr [JVal.str "x"])] (by rfl)
  · exact validate_strings_only.2 [("A", JVal.arr [JVal.str "x"])] "B"
      [JVal.num 1] []
      (by
        intro kv hkv
        rcases List.mem_cons.mp hkv with hkv | hkv
        · subst hkv
          exact ⟨[JVal.str "x"], rfl, rfl⟩
        · cases hkv)
      rfl

/-! ## Claim C4 -/

/-- Counterexample to claim C4 as stated: the empty object has (vacuously)
only arrays of strings as values, yet `validateJsonStructure` rejects it
with the no-departments message, so "validate succeeds on every object
whose values are all arrays of strings" is false at `{}`. -/
theorem validate_empty_object_counterexample :
    (validateJsonStructure (.obj [])).isValid = false ∧
    (validateJsonStructure (.obj [])).error =
      some "Invalid response: no departments found in the response" := by
  constructor <;> rfl

/-- Auxiliary: an array of strings passes the element check. -/
theorem all_isStrVal_map_str (ss : List String) :
    (ss.map JVal.str).all isStrVal = true := by
  refine List.all_eq_true.mpr ?_
  intro e he
  obtain ⟨s, _, rfl⟩ := List.mem_map.mp he
  rfl

/-- Auxiliary: the validator loop never fails on an object whose values
are all arrays of strings. -/
theorem checkDepartments_strings (kvs : List (String × List String)) :
    checkDepartments (kvs.map (fun p => (p.1, JVal.arr (p.2.map JVal.str)))) =
      none := by
  induction kvs with
  | nil => rfl
  | cons p rest ih =>
    obtain ⟨k, ss⟩ := p
    simpa [checkDepartments, all_isStrVal_map_str ss] using ih

/-- Claim C4 (corrected): for every non-empty object whose values are
all arrays of strings, validation succeeds, and normalization yields a
collection with the same department keys in which every task's `text`
equals the original string at the same position and every task's
`completed` is false. -/
theorem validate_normalize_strings (kvs : List (String × List String))
    (h : kvs ≠ []) :
    (validateJsonStructure
        (.obj (kvs.map (fun p => (p.1, JVal.arr (p.2.map JVal.str)))))).isValid =
      true ∧
    convertTasksToObjects
        (.obj (kvs.map (fun p => (p.1, JVal.arr (p.2.map JVal.str))))) =
      .obj (kvs.map (fun p => (p.1, JVal.arr (p.2.map (fun s =>
        JVal.obj [("text", JVal.str s), ("completed", JVal.bool false)]))))) := by
  constructor
  · have hne : (kvs.map (fun p => (p.1, JVal.arr (p.2.map JVal.str)))).isEmpty =
        false := by
      cases kvs with
      | nil => exact absurd rfl h
      | cons p rest => rfl
    simp [validateJsonStructure, checkDepartments_strings, hne]
  · simp only [convertTasksToObjects, List.map_map]
    apply congrArg JVal.obj
    apply List.map_congr_left
    intro p _
    simp only [Function.comp_apply, convertDepartment, List.map_map]
    rfl

/-- Witness for the corrected C4 at a two-department object of string
tasks. -/
theorem validate_normalize_strings_witness :
    (validateJsonStructure
        (.obj ([(("Marketing" : String), ["a", "b"]), ("Other", [])].map
          (fun p => (p.1, JVal.arr (p.2.map JVal.str)))))).isValid = true ∧
    convertTasksToObjects
        (.obj ([(("Marketing" : String), ["a", "b"]), ("Other", [])].map
          (fun p => (p.1, JVal.arr (p.2.map JVal.str))))) =
      .obj ([(("Marketing" : String), ["a", "b"]), ("Other", [])].map
        (fun p => (p.1, JVal.arr (p.2.map (fun s =>
          JVal.obj [("text", JVal.str s), ("completed", JVal.bool false)]))))) :=
  validate_normalize_strings [("Marketing", ["a", "b"]), ("Other", [])]
    (by decide)

/-! ## Claim C3 -/

/-- A value in canonical task-record shape: an object with exactly a
string `text` field and a boolean `completed` field. -/
def IsCanonicalTask (v : JVal) : Prop :=
  ∃ s c, v = .obj [("text", .str s), ("completed", .bool c)]

/-- A value in canonical collection shape: an object every value of
which is an array of canonical task records. -/
def IsCanonicalCollection (v : JVal) : Prop :=
  ∃ fields, v = .obj fields ∧
    ∀ kv ∈ fields, ∃ elems, kv.2 = JVal.arr elems ∧
      ∀ e ∈ elems, IsCanonicalTask e

/-- Normalization fixes canonical task records: `task.text || ''` is the
identity on strings and `task.completed === true` is the identity on
booleans. -/
theorem convertTask_canonical {v : JVal} (h : IsCanonicalTask v) :
    convertTask v = v := by
  obtain ⟨s, c, rfl⟩ := h
  show JVal.obj _ = _
  by_cases hs : s = ""
  · subst hs
    cases c <;> rfl
  · have hfal : jsFalsy (JVal.str s) = false := by
      simp [jsFalsy, hs]
    cases c <;> simp [convertTask, hasKey, getKey, List.find?, hfal, isTrueVal]

/-- Normalization produced by `convertTask` is always canonical in the
string case. -/
theorem convertTask_str_canonical (s : String) :
    IsCanonicalTask (convertTask (.str s)) :=
  ⟨s, false, rfl⟩

/-- A department array of canonical records maps to itself. -/
theorem map_convertTask_canonical {elems : List JVal}
    (h : ∀ e ∈ elems, IsCanonicalTask e) : elems.map convertTask = elems := by
  induction elems with
  | nil => rfl
  | cons e rest ih =>
    rw [List.map_cons, convertTask_canonical (h e (List.mem_cons_self _ _)),
      ih (fun x hx => h x (List.mem_cons_of_mem _ hx))]

/-- A canonical collection is a fixed point of `convertTasksToObjects`. -/
theorem convertTasksToObjects_canonical {v : JVal}
    (h : IsCanonicalCollection v) : convertTasksToObjects v = v := by
  obtain ⟨fields, rfl, hfields⟩ := h
  show JVal.obj _ = _
  apply congrArg JVal.obj
  induction fields with
  | nil => rfl
  | cons kv rest ih =>
    obtain ⟨k, w⟩ := kv
    obtain ⟨elems, hw, helems⟩ := hfields (k, w) (List.mem_cons_self _ _)
    simp only at hw
    subst hw
    rw [List.map_cons, ih (fun x hx => hfields x (List.mem_cons_of_mem _ hx))]
    show ((k, convertDepartment (JVal.arr elems)) :: rest) = _
    rw [show convertDepartment (JVal.arr elems) = JVal.arr (elems.map convertTask)
      from rfl, map_convertTask_canonical helems]

/-- A value that passes `validateJsonStructure` normalizes to a
canonical collection. -/
theorem convert_validated_canonical {x : JVal}
    (h : (validateJsonStructure x).isValid = true) :
    IsCanonicalCollection (convertTasksToObjects x) := by
  cases x with
  | obj fields =>
    cases hc : checkDepartments fields with
    | some e => simp [validateJsonStructure, hc] at h
    | none =>
      refine ⟨_, rfl, ?_⟩
      intro kv hkv
      obtain ⟨kv0, hkv0, rfl⟩ := List.mem_map.mp hkv
      obtain ⟨elems, hv, helems⟩ := checkDepartments_none_sound hc kv0 hkv0
      rw [show (kv0.1, convertDepartment kv0.2).2 = convertDepartment kv0.2
        from rfl, hv]
      refine ⟨elems.map convertTask, rfl, ?_⟩
      intro e he
      obtain ⟨e0, he0, rfl⟩ := List.mem_map.mp he
      have := helems e0 he0
      cases e0 with
      | str s => exact convertTask_str_canonical s
      | num n => simp [isStrVal] at this
      | bool b => simp [isStrVal] at this
      | null => simp [isStrVal] at this
      | arr l => simp [isStrVal] at this
      | obj o => simp [isStrVal] at this
  | str s => simp [validateJsonStructure] at h
  | num n => simp [validateJsonStructure] at h
  | bool b => simp [validateJsonStructure] at h
  | null => simp [validateJsonStructure] at h
  | arr l => simp [validateJsonStructure] at h

/-- Claim C3 (confirmed): `normalize` (the source's
`convertTasksToObjects`) is idempotent on every value that passes
validation, and every already-canonical collection — each task an object
with string `text` and boolean `completed` — is a fixed point of it. -/
theorem normalize_idempotent :
    (∀ x : JVal, (validateJsonStructure x).isValid = true →
      convertTasksToObjects (convertTasksToObjects x) = convertTasksToObjects x) ∧
    (∀ C : JVal, IsCanonicalCollection C → convertTasksToObjects C = C) := by
  constructor
  · intro x h
    exact convertTasksToObjects_canonical (convert_validated_canonical h)
  · intro C h
    exact convertTasksToObjects_canonical h

/-- Witness for C3: idempotence at a validated object of string tasks,
and fixed-point behaviour at a concrete canonical collection holding a
completed task with nonempty text and an incomplete one with empty
text. -/
theorem normalize_idempotent_witness :
    convertTasksToObjects
        (convertTasksToObjects (.obj [("A", .arr [.str "x", .str ""])])) =
      convertTasksToObjects (.obj [("A", .arr [.str "x", .str ""])]) ∧
    convertTasksToObjects
        (.obj [("Legal", .arr
          [.obj [("text", .str "t"), ("completed", .bool true)],
           .obj [("text", .str ""), ("completed", .bool false)]])]) =
      .obj [("Legal", .arr
        [.obj [("text", .str "t"), ("completed", .bool true)],
         .obj [("text", .str ""), ("completed", .bool false)]])] := by
  constructor
  · exact normalize_idempotent.1 (.obj [("A", .arr [.str "x", .str ""])]) rfl
  · refine normalize_idempotent.2 _ ⟨_, rfl, ?_⟩
    intro kv hkv
    rcases List.mem_cons.mp hkv with hkv | hkv
    · subst hkv
      refine ⟨_, rfl, ?_⟩
      intro e he
      rcases List.mem_cons.mp he with he | he
      · subst he
        exact ⟨"t", true, rfl⟩
      · rcases List.mem_cons.mp he with he | he
        · subst he
          exact ⟨"", false, rfl⟩
        · cases he
    · cases hkv

/-! ## Claim C2 -/

/-- Counterexample to claim C2 as stated: on text containing no brace at
all, `extractJsonFromResponse` does not fail with an extraction error —
it returns the (trimmed) text unchanged, and any failure only surfaces
later as a JSON parse error.  The claim asserts this input fails at
extraction. -/
theorem extract_no_brace_counterexample :
    extractJsonFromResponse "hello" = .ok "hello" := rfl

/-- Claim C2 (corrected): `extractJsonFromResponse` fails exactly on the
empty (falsy) input, never because braces are missing.  On nonempty
input it first trims whitespace, takes the trimmed content of a fenced
block when one is present, and then reduces to the inclusive substring
from the first `{` to the last `}` whenever both exist with the last `}`
after the first `{` — otherwise the text is returned unchanged.  The two
extraction examples of the specification evaluate as stated. -/
theorem extract_spec :
    (∀ s, (∃ e, extractJsonFromResponse s = .error e) ↔ s = "") ∧
    (∀ s, s ≠ "" → fenceContent (jsTrim s).data = none →
      firstIndexOf (jsTrim s).data '\x7b' = none →
      extractJsonFromResponse s = .ok (jsTrim s)) ∧
    (∀ s f l, s ≠ "" → fenceContent (jsTrim s).data = none →
      firstIndexOf (jsTrim s).data '\x7b' = some f →
      lastIndexOf (jsTrim s).data '\x7d' = some l → f < l →
      extractJsonFromResponse s =
        .ok ⟨((jsTrim s).data.drop f).take (l + 1 - f)⟩) ∧
    extractJsonFromResponse
        "\x60\x60\x60json\n\x7b\"Marketing\":[]\x7d\n\x60\x60\x60" =
      .ok "\x7b\"Marketing\":[]\x7d" ∧
    extractJsonFromResponse "prefix \x7b\"A\":[\"x\"]\x7d suffix" =
      .ok "\x7b\"A\":[\"x\"]\x7d" := by
  refine ⟨?_, ?_, ?_, rfl, rfl⟩
  · intro s
    constructor
    · rintro ⟨e, he⟩
      by_cases h : s = ""
      · exact h
      · simp [extractJsonFromResponse, h] at he
    · rintro rfl
      exact ⟨_, rfl⟩
  · intro s hs hfence hfirst
    simp [extractJsonFromResponse, hs, hfence, braceSlice, hfirst]
  · intro s f l hs hfence hfirst hlast hfl
    simp [extractJsonFromResponse, hs, hfence, braceSlice, hfirst, hlast, hfl]

/-- Witness for the corrected C2: brace-free nonempty input is returned
unchanged rather than failing, and a brace pair inside surrounding prose
is cut out inclusively. -/
theorem extract_spec_witness :
    extractJsonFromResponse "no json here" = .ok (jsTrim "no json here") ∧
    extractJsonFromResponse "a \x7bx\x7d b" =
      .ok ⟨((jsTrim "a \x7bx\x7d b").data.drop 2).take (4 + 1 - 2)⟩ := by
  constructor
  · exact extract_spec.2.1 "no json here" (by decide) rfl rfl
  · exact extract_spec.2.2.1 "a \x7bx\x7d b" 2 4 (by decide) rfl rfl rfl
      (by decide)

/-! ## Claim C8 -/

/-- Strings with equal character data are equal. -/
theorem string_ext {a b : String} (h : a.data = b.data) : a = b := by
  cases a with
  | mk l1 =>
    cases b with
    | mk l2 => exact congrArg String.mk h

/-- Does the string start with a non-whitespace character? -/
def headNonWs (s : String) : Bool :=
  match s.data with
  | [] => false
  | c :: _ => !isJsWs c

/-- Does the character list end with a non-whitespace character? -/
def lastNonWs (l : List Char) : Bool :=
  match l.getLast? with
  | some c => !isJsWs c
  | none => false

theorem trimLeftL_cons_nonws {c : Char} (h : isJsWs c = false) (cs : List Char) :
    trimLeftL (c :: cs) = c :: cs := by
  simp [trimLeftL, h]

theorem trimRightL_append_nn (l : List Char) :
    trimRightL (l ++ ['\n', '\n']) = trimRightL l := by
  have hnws : isJsWs '\n' = true := rfl
  simp [trimRightL, List.reverse_append, trimLeftL, hnws]

theorem trimRightL_of_lastNonWs {l : List Char} (h : lastNonWs l = true) :
    trimRightL l = l := by
  cases hl : l.getLast? with
  | none => simp [lastNonWs, hl] at h
  | some c =>
    have hc : isJsWs c = false := by
      simpa [lastNonWs, hl] using h
    have hne : l ≠ [] := by
      intro he
      rw [he] at hl
      cases hl
    have hgl : l.getLast hne = c := by
      have h2 := List.getLast?_eq_getLast l hne
      rw [hl] at h2
      exact (Option.some.inj h2).symm
    conv_lhs => rw [← List.dropLast_append_getLast hne, hgl]
    conv_rhs => rw [← List.dropLast_append_getLast hne, hgl]
    simp [trimRightL, List.reverse_append, trimLeftL_cons_nonws hc,
      List.reverse_cons, List.reverse_reverse]

theorem lastNonWs_append {b : List Char} (h : lastNonWs b = true)
    (a : List Char) : lastNonWs (a ++ b) = true := by
  cases hl : b.getLast? with
  | none => simp [lastNonWs, hl] at h
  | some c =>
    have hc := by simpa [lastNonWs, hl] using h
    simp [lastNonWs, List.getLast?_append, hl, hc]

theorem headNonWs_append {a : String} (h : headNonWs a = true) (b : String) :
    headNonWs (a ++ b) = true := by
  cases hd : a.data with
  | nil => simp [headNonWs, hd] at h
  | cons c cs =>
    have hdata : (a ++ b).data = c :: (cs ++ b.data) := by
      rw [String.data_append, hd]
      rfl
    have hc := by simpa [headNonWs, hd] using h
    simp [headNonWs, hdata, hc]

/-- Trimming a string that starts and ends with non-whitespace and
carries a trailing blank line removes exactly that trailing `\n\n`. -/
theorem jsTrim_append_nn {s : String} (hhead : headNonWs s = true)
    (hlast : lastNonWs s.data = true) : jsTrim (s ++ "\n\n") = s := by
  apply string_ext
  show trimRightL (trimLeftL (s ++ "\n\n").data) = s.data
  rw [String.data_append,
    show ("\n\n" : String).data = ['\n', '\n'] from rfl]
  cases hd : s.data with
  | nil => simp [headNonWs, hd] at hhead
  | cons c cs =>
    have hc : isJsWs c = false := by
      simpa [headNonWs, hd] using hhead
    rw [List.cons_append, trimLeftL_cons_nonws hc, ← List.cons_append,
      trimRightL_append_nn]
    rw [hd] at hlast
    exact trimRightL_of_lastNonWs hlast

/-- One task entry of the claim's export format: a 1-based ordinal line
with the task text, then an indented status line that is one of exactly
two fixed strings selected by the completed flag. -/
def exportTaskLine (i : Nat) (t : Task) : String :=
  toString (i + 1) ++ ". " ++ t.text ++ "\n" ++ "   Status: " ++
    (if t.completed then "✔️ Completed" else "⏳ In progress")

/-- Task entries separated by a blank line. -/
def sepByBlank : List String → String
  | [] => ""
  | [b] => b
  | b :: b2 :: rest => b ++ "\n\n" ++ sepByBlank (b2 :: rest)

/-- The export format exactly as claim C8 words it: a header line with
the department name, a status line with the (locale-formatted) time, a
blank line, then the task entries in order separated by blank lines. -/
def exportTextSpec (department timeString : String) (tasks : List Task) :
    String :=
  department ++ "\n" ++ "Status as of " ++ timeString ++ "\n\n" ++
    sepByBlank (tasks.enum.map (fun p => exportTaskLine p.1 p.2))

theorem taskBlock_some (i : Nat) (t : Task) :
    taskBlock i (some t) = exportTaskLine i t ++ "\n\n" := by
  cases t with
  | mk tx c => cases c <;> rfl

theorem joinStrs_append_blocks : ∀ (bs : List String), bs ≠ [] →
    joinStrs (bs.map (fun b => b ++ "\n\n")) = sepByBlank bs ++ "\n\n"
  | [], h => absurd rfl h
  | [b], _ => by
    show (b ++ "\n\n") ++ joinStrs [] = b ++ "\n\n"
    rw [show joinStrs [] = "" from rfl, String.append_empty]
  | b :: b2 :: rest, _ => by
    show (b ++ "\n\n") ++ joinStrs ((b2 :: rest).map (fun x => x ++ "\n\n")) = _
    rw [joinStrs_append_blocks (b2 :: rest) (by simp),
      show sepByBlank (b :: b2 :: rest) =
        b ++ "\n\n" ++ sepByBlank (b2 :: rest) from rfl,
      String.append_assoc (b ++ "\n\n") (sepByBlank (b2 :: rest)) "\n\n"]

theorem lastNonWs_exportTaskLine (i : Nat) (t : Task) :
    lastNonWs (exportTaskLine i t).data = true := by
  cases t with
  | mk tx c =>
    cases c with
    | false =>
      show lastNonWs ((toString (i + 1) ++ ". " ++ tx ++ "\n" ++ "   Status: " ++
        "⏳ In progress").data) = true
      rw [String.data_append]
      exact lastNonWs_append (by decide) _
    | true =>
      show lastNonWs ((toString (i + 1) ++ ". " ++ tx ++ "\n" ++ "   Status: " ++
        "✔️ Completed").data) = true
      rw [String.data_append]
      exact lastNonWs_append (by decide) _

theorem lastNonWs_sepByBlank : ∀ (bs : List String), bs ≠ [] →
    (∀ b ∈ bs, lastNonWs b.data = true) →
    lastNonWs (sepByBlank bs).data = true
  | [], h, _ => absurd rfl h
  | [b], _, hall => by
    simpa [sepByBlank] using hall b (List.mem_singleton_self b)
  | b :: b2 :: rest, _, hall => by
    have ih := lastNonWs_sepByBlank (b2 :: rest) (by simp)
      (fun x hx => hall x (List.mem_cons_of_mem _ hx))
    show lastNonWs ((b ++ "\n\n" ++ sepByBlank (b2 :: rest)).data) = true
    rw [String.data_append]
    exact lastNonWs_append ih _

/-- Counterexample to claim C8 as stated: for a department name that
begins with whitespace — reachable, since the validator accepts
arbitrary keys and `addTask` takes any name — the source's final
`exportText.trim()` strips the leading whitespace of the whole string,
so the output's header line is the *trimmed* name, not the department
name, and the output differs from the claimed layout. -/
theorem generateExportText_header_counterexample :
    generateExportText " Legal" [(" Legal", [some ⟨"x", false⟩])] "t" =
      "Legal\nStatus as of t\n\n1. x\n   Status: ⏳ In progress" ∧
    generateExportText " Legal" [(" Legal", [some ⟨"x", false⟩])] "t" ≠
      exportTextSpec " Legal" "t" [⟨"x", false⟩] := by
  constructor
  · rfl
  · decide

/-- Claim C8 (corrected): the export formatter — a pure function of the
department, the store and the formatted clock value, hence byte-identical
across repeated calls with the same inputs — returns the empty string
when the department is absent or has no tasks; and provided the
department name is nonempty and begins with a non-whitespace character
(otherwise the source's final `trim` removes the name's leading
whitespace from the header), it produces exactly the claimed layout: a
header line with the department name, a status line carrying the time
string derived from the clock, a blank line, and then for each task in
order a 1-based ordinal with the task text followed by an indented
status line that is one of exactly two fixed strings selected by the
task's completed flag (blank-line separated). -/
theorem generateExportText_spec (d : String) (store : TaskStore) (ts : String) :
    (lookupDept store d = none → generateExportText d store ts = "") ∧
    (lookupDept store d = some [] → generateExportText d store ts = "") ∧
    (∀ tasks : List Task, tasks ≠ [] →
      lookupDept store d = some (tasks.map some) →
      headNonWs d = true →
      generateExportText d store ts = exportTextSpec d ts tasks) := by
  refine ⟨?_, ?_, ?_⟩
  · intro h
    simp [generateExportText, h]
  · intro h
    simp [generateExportText, h]
  · intro tasks hne hlook hhead
    have hlen : ((tasks.map some).length == 0) = false := by
      cases tasks with
      | nil => exact absurd rfl hne
      | cons a l => rfl
    have hstep : generateExportText d store ts =
        jsTrim (d ++ "\n" ++ "Status as of " ++ ts ++ "\n\n" ++
          joinStrs ((tasks.map some).enum.map (fun p => taskBlock p.1 p.2))) := by
      simp [generateExportText, hlook, hlen, hne]
    rw [hstep]
    have hblocks : (tasks.map some).enum.map (fun p => taskBlock p.1 p.2) =
        (tasks.enum.map (fun p => exportTaskLine p.1 p.2)).map
          (fun b => b ++ "\n\n") := by
      rw [List.enum_map, List.map_map, List.map_map]
      apply List.map_congr_left
      intro p _
      cases p with
      | mk i t => exact taskBlock_some i t
    have hbs : tasks.enum.map (fun p => exportTaskLine p.1 p.2) ≠ [] := by
      intro habs
      exact hne (List.enum_eq_nil.mp (List.map_eq_nil_iff.mp habs))
    rw [hblocks, joinStrs_append_blocks _ hbs, ← String.append_assoc]
    have hheadHS : headNonWs
        (d ++ "\n" ++ "Status as of " ++ ts ++ "\n\n" ++
          sepByBlank (tasks.enum.map (fun p => exportTaskLine p.1 p.2))) =
        true :=
      headNonWs_append (headNonWs_append (headNonWs_append
        (headNonWs_append (headNonWs_append hhead _) _) _) _) _
    have hall : ∀ b ∈ tasks.enum.map (fun p => exportTaskLine p.1 p.2),
        lastNonWs b.data = true := by
      intro b hb
      obtain ⟨p, _, rfl⟩ := List.mem_map.mp hb
      exact lastNonWs_exportTaskLine p.1 p.2
    have hlastHS : lastNonWs
        ((d ++ "\n" ++ "Status as of " ++ ts ++ "\n\n" ++
          sepByBlank (tasks.enum.map (fun p => exportTaskLine p.1 p.2))).data) =
        true := by
      rw [String.data_append]
      exact lastNonWs_append (lastNonWs_sepByBlank _ hbs hall) _
    rw [jsTrim_append_nn hheadHS hlastHS]
    rfl

/-- Witness for C8: an unbound department and an empty department both
export as the empty string, and the specification's `Legal` example
renders in exactly the claimed layout. -/
theorem generateExportText_spec_witness :
    generateExportText "X" [] "t" = "" ∧
    generateExportText "Empty" [("Empty", [])] "t" = "" ∧
    generateExportText "Legal" [("Legal", [some ⟨"Add T&C", true⟩])] "3:04 PM" =
      exportTextSpec "Legal" "3:04 PM" [⟨"Add T&C", true⟩] := by
  refine ⟨?_, ?_, ?_⟩
  · exact (generateExportText_spec "X" [] "t").1 rfl
  · exact (generateExportText_spec "Empty" [("Empty", [])] "t").2.1
      (by rw [lookupDept_cons, if_pos rfl])
  · exact (generateExportText_spec "Legal" [("Legal", [some ⟨"Add T&C", true⟩])]
      "3:04 PM").2.2 [⟨"Add T&C", true⟩] (by simp)
      (by rw [lookupDept_cons, if_pos rfl]; rfl) (by decide)

end Brief2Check
